import Mathlib

/-!
# Verification of the graph execution engine (`src/app/engine.py`)

This file gives a shallow embedding of the workflow/graph engine of the
repository (`app/engine.py`, with the data shapes of `app/models.py`) and
proves properties of it.

Two embeddings are used:

* a *value-level* model (`PVal`, `StateD`, `runLoop`, `run_graph`) in which
  the Python state dict is a value (an insertion-ordered association list,
  matching `dict` semantics for string keys).  This model is used for all
  control-flow properties: next-node selection, step numbering, the step
  ceiling, error handling, and the content of recorded snapshots.

* a *heap* model (`HVal`, `HObj`, `Heap`, `runLoopH`, `run_graphH`) in which
  dict and list objects live at addresses and Python's aliasing is explicit
  (`dict(state)` copies only the top level of a dict object, nested objects
  stay shared).  This model is used for the aliasing properties: whether a
  recorded snapshot can be altered retroactively, and whether the caller's
  `initial_state` dict is mutated.

Python `uuid4()` identifiers are modelled as explicit parameters (`run_id`);
this only renames the fresh key under which a run record is stored.
-/

/-- A Python value stored in the engine state at the value level.
State values relevant to the engine's control flow (`state.get("_stop")`
truthiness, `_next_node` contents, counters of the worked examples) are
`None`, booleans, integers and strings; container values (lists, dicts) are
modelled in the heap model below, where their identity matters. -/
inductive PVal where
  | none
  | bool (b : Bool)
  | int (n : Int)
  | str (s : String)
deriving DecidableEq, Repr

/-- The engine state: a Python `Dict[str, Any]` as an insertion-ordered
association list with unique keys (CPython dict semantics). -/
abbrev StateD := List (String × PVal)

/-- Python `d.get(key)` on an association list: the first (hence only) binding. -/
def lookupL {α : Type} : List (String × α) → String → Option α
  | [], _ => Option.none
  | (k, v) :: rest, key => if k = key then some v else lookupL rest key

/-- Python `d[key] = value`: replace in place keeping the key's position, else
append at the end (CPython insertion order). -/
def setL {α : Type} : List (String × α) → String → α → List (String × α)
  | [], k, v => [(k, v)]
  | (k', v') :: rest, k, v =>
      if k' = k then (k', v) :: rest else (k', v') :: setL rest k v

/-- The mutation part of Python `d.pop(key, None)`: remove the binding if present. -/
def eraseL {α : Type} : List (String × α) → String → List (String × α)
  | [], _ => []
  | (k', v') :: rest, k => if k' = k then rest else (k', v') :: eraseL rest k

/-- Python `state.get(k)` (no default). -/
def dGet (d : StateD) (k : String) : Option PVal := lookupL d k

/-- Python `state.get(k)` with the implicit default `None`. -/
def dGetD (d : StateD) (k : String) : PVal := (lookupL d k).getD PVal.none

/-- Python `state[k] = v`. -/
def dSet (d : StateD) (k : String) (v : PVal) : StateD := setL d k v

/-- The effect of `state.pop(k, None)` on the dict. -/
def dErase (d : StateD) (k : String) : StateD := eraseL d k

/-- Python truthiness of the values of `PVal` (`if state.get("_stop"):`). -/
def truthy : PVal → Bool
  | PVal.none => false
  | PVal.bool b => b
  | PVal.int n => n != 0
  | PVal.str s => s != ""

/-- A node implementation (`ToolFunc = Callable[[Dict], Dict]`), at the
value level: a function from state to state. -/
abbrev Tool := StateD → StateD

/-- Structure `models.ExecutionStep`. -/
structure ExecutionStep where
  step_number : Nat
  node : String
  state_snapshot : StateD
deriving DecidableEq, Repr

/-- Class `engine.GraphDefinition`. -/
structure GraphDefinition where
  graph_id : String
  nodes : List String
  edges : List (String × Option String)
  start_node : String
deriving DecidableEq, Repr

/-- Class `engine.RunRecord`: `log` starts `[]` and `current_state` starts `{}`
in `RunRecord.__init__`. -/
structure RunRecord where
  run_id : String
  graph_id : String
  log : List ExecutionStep
  current_state : StateD
deriving DecidableEq, Repr

/-- The three stores of `engine.GraphEngine`. -/
structure GraphEngine where
  tool_registry : List (String × Tool)
  graphs : List (String × GraphDefinition)
  runs : List (String × RunRecord)

/-- Errors `run_graph` can raise: `KeyError` for an unknown graph
(engine.py line 93) and `ValueError` for a node with no registered tool
(line 106).  `typeError` models `dict.get` applied to an unhashable key
(possible only for container-valued `_next_node`, heap model only). -/
inductive RunErr where
  | graphNotFound (graph_id : String)
  | nodeNotFound (node : PVal)
  | typeError (node : PVal)
deriving DecidableEq, Repr

/-- Node lookup `self.tool_registry.get(current_node)` (engine.py line 104):
`current_node` is a string for every registered node; a non-string
(hashable) `current_node` is simply not found. -/
def toolFor (reg : List (String × Tool)) : PVal → Option (String × Tool)
  | PVal.str s => (lookupL reg s).map (fun t => (s, t))
  | _ => Option.none

/-- Edge lookup `graph.edges.get(current_node)` (engine.py line 131): the static edge
map yields the successor name, or `None` when the entry is absent or null;
`None` makes the loop condition `current_node is not None` fail. -/
def edgeNext (edges : List (String × Option String)) (name : String) :
    Option PVal :=
  match lookupL edges name with
  | some (some t) => some (PVal.str t)
  | some Option.none => Option.none
  | Option.none => Option.none

/-- The `while` loop of `GraphEngine.run_graph` (engine.py lines 103-133),
with the remaining permitted iterations (`max_steps - step_number`) as
fuel.  Arguments mirror the loop's live variables: current node
(`Option.none` is Python's `current_node is None`), live state dict, step
number, accumulated `run_record.log`, and `run_record.current_state`. -/
def runLoop (reg : List (String × Tool))
    (edges : List (String × Option String)) :
    Nat → Option PVal → StateD → Nat → List ExecutionStep → StateD →
    Except RunErr (List ExecutionStep × StateD)
  | 0, _, _, _, log, snap => Except.ok (log, snap)
  | _ + 1, Option.none, _, _, log, snap => Except.ok (log, snap)
  | fuel + 1, some cur, state, stepNo, log, _ =>
    match toolFor reg cur with
    | Option.none => Except.error (RunErr.nodeNotFound cur)
    | some (name, tool) =>
      -- state = tool(state); snapshot = dict(state)  (lines 109-112)
      let st' := tool state
      -- run_record.log.append(ExecutionStep(...))   (lines 114-120)
      let log' := log ++ [⟨stepNo, name, st'⟩]
      if truthy (dGetD st' "_stop") then
        -- current_node = None; step_number += 1; loop exits (lines 123-124)
        Except.ok (log', st')
      else
        -- next_from_state = state.pop("_next_node", None)  (line 126)
        let nxt := dGet st' "_next_node"
        let st'' := dErase st' "_next_node"
        let cur' : Option PVal :=
          match nxt with
          | some v => if v = PVal.none then edgeNext edges name else some v
          | Option.none => edgeNext edges name
        runLoop reg edges fuel cur' st'' (stepNo + 1) log' st'

/-- Method `GraphEngine.run_graph` (engine.py lines 77-136).  `run_id` is the
`uuid4()` result, passed explicitly.  Returns the raised error or the
returned `RunRecord`, together with the engine after the call (`self.runs`
gains the record only on normal termination, line 135). -/
def run_graph (eng : GraphEngine) (run_id : String) (graph_id : String)
    (initial_state : StateD) (max_steps : Int) :
    Except RunErr RunRecord × GraphEngine :=
  match lookupL eng.graphs graph_id with
  | Option.none => (Except.error (RunErr.graphNotFound graph_id), eng)
  | some graph =>
    -- state = dict(initial_state): a value-level copy (line 99)
    let state := initial_state
    match runLoop eng.tool_registry graph.edges max_steps.toNat
        (some (PVal.str graph.start_node)) state 0 [] [] with
    | Except.error e => (Except.error e, eng)
    | Except.ok (log, snap) =>
      let record : RunRecord := ⟨run_id, graph_id, log, snap⟩
      (Except.ok record,
        ⟨eng.tool_registry, eng.graphs, setL eng.runs run_id record⟩)

/-- Method `GraphEngine.get_run` (engine.py lines 140-141). -/
def get_run (eng : GraphEngine) (run_id : String) : Option RunRecord :=
  lookupL eng.runs run_id

/-- Method `GraphEngine.register_tool` (engine.py lines 53-57). -/
def register_tool (eng : GraphEngine) (name : String) (func : Tool) :
    GraphEngine :=
  ⟨setL eng.tool_registry name func, eng.graphs, eng.runs⟩

/-- Method `GraphEngine.create_graph` (engine.py lines 61-73), with the fresh
`uuid4()` graph identifier passed explicitly. -/
def create_graph (eng : GraphEngine) (graph_id : String) (nodes : List String)
    (edges : List (String × Option String)) (start_node : String) :
    String × GraphEngine :=
  (graph_id,
    ⟨eng.tool_registry,
      setL eng.graphs graph_id ⟨graph_id, nodes, edges, start_node⟩,
      eng.runs⟩)

/-!
## Heap model

Python dict and list objects are mutable and shared by reference; `dict(state)`
(engine.py line 112 for the snapshot, line 99 for the initial-state copy)
copies only the top-level key/value table, while nested objects stay shared.
To reason about this, values are modelled with explicit addresses into a heap.
-/

/-- A Python value in the heap model: immutable scalars are inline, every
list or dict value is a reference to a heap object. -/
inductive HVal where
  | none
  | bool (b : Bool)
  | int (n : Int)
  | str (s : String)
  | ref (a : Nat)
deriving DecidableEq, Repr

/-- The top-level table of a dict object. -/
abbrev HDict := List (String × HVal)

/-- A heap object: a dict or a list. -/
inductive HObj where
  | dict (d : HDict)
  | list (xs : List HVal)
deriving DecidableEq, Repr

/-- The heap: object at address `a` is entry `a`; allocation appends. -/
abbrev Heap := List HObj

/-- Allocate a fresh object, returning the new heap and its address. -/
def heapAlloc (h : Heap) (o : HObj) : Heap × Nat := (h ++ [o], h.length)

/-- Overwrite the object at an address (in-place mutation). -/
def heapSet (h : Heap) (a : Nat) (o : HObj) : Heap := h.set a o

/-- Read the dict table at an address (engine state addresses always hold
dict objects when the run is well formed). -/
def dictAt (h : Heap) (a : Nat) : HDict :=
  match h[a]? with
  | some (HObj.dict d) => d
  | _ => []

/-- Read the list elements at an address. -/
def listAt (h : Heap) (a : Nat) : List HVal :=
  match h[a]? with
  | some (HObj.list xs) => xs
  | _ => []

/-- Python truthiness in the heap model; a reference is truthy when the
referenced container is nonempty. -/
def truthyH (h : Heap) : HVal → Bool
  | HVal.none => false
  | HVal.bool b => b
  | HVal.int n => n != 0
  | HVal.str s => s != ""
  | HVal.ref a =>
    match h[a]? with
    | some (HObj.dict d) => !d.isEmpty
    | some (HObj.list xs) => !xs.isEmpty
    | Option.none => false

/-- A node implementation in the heap model: receives the heap and the
address of the state dict, returns the new heap and the address of the
dict it returns (Python `ToolFunc`, by reference). -/
abbrev ToolH := Heap → Nat → Heap × Nat

/-- Heap-model errors (`nodeNotFound` carries the current node value;
`typeError` models `dict.get` on an unhashable (container) key). -/
inductive RunErrH where
  | graphNotFound (graph_id : String)
  | nodeNotFound (node : HVal)
  | typeError (node : HVal)
deriving DecidableEq, Repr

/-- Python `state.get(k)` on a dict table, with the implicit default `None`. -/
def dGetHD (d : HDict) (k : String) : HVal := (lookupL d k).getD HVal.none

/-- Edge lookup `graph.edges.get(current_node)` in the heap model (same static edge
map as `edgeNext`, producing a heap-model value). -/
def edgeNextH (edges : List (String × Option String)) (name : String) :
    Option HVal :=
  match lookupL edges name with
  | some (some t) => some (HVal.str t)
  | some Option.none => Option.none
  | Option.none => Option.none

/-- Node lookup `self.tool_registry.get(current_node)` in the heap model: strings are
looked up; other scalars are hashable but absent; a container key (list or
dict reference) is unhashable and raises `TypeError`. -/
def toolForH (reg : List (String × ToolH)) :
    HVal → Except RunErrH (Option (String × ToolH))
  | HVal.str s => Except.ok ((lookupL reg s).map (fun t => (s, t)))
  | HVal.ref a => Except.error (RunErrH.typeError (HVal.ref a))
  | _ => Except.ok (Option.none (α := String × ToolH))

/-- One recorded `ExecutionStep` in the heap model: the snapshot is the
address of the dict object created by `dict(state)` at recording time;
`snap_dict` additionally records the table that was written into that
object when the step was recorded (what the engine recorded, used to state
that the object later still holds exactly that table). -/
structure StepH where
  step_number : Nat
  node : String
  snap_addr : Nat
  snap_dict : HDict
deriving DecidableEq, Repr

/-- The returned `RunRecord` in the heap model: its log and the address
held by `run_record.current_state` at the end. -/
structure RunRecordH where
  log : List StepH
  current_state_addr : Nat
deriving DecidableEq, Repr

/-- The `while` loop of `run_graph` in the heap model (engine.py lines
103-133).  `liveAddr` is the address of the dict bound to the Python
variable `state`; `snapAddr` is the address bound to
`run_record.current_state`.  The heap after the loop is returned also when
an error is raised (Python mutations persist past an exception). -/
def runLoopH (reg : List (String × ToolH))
    (edges : List (String × Option String)) :
    Nat → Option HVal → Nat → Nat → List StepH → Nat → Heap →
    Except RunErrH (List StepH × Nat) × Heap
  | 0, _, _, _, log, snapAddr, h => (Except.ok (log, snapAddr), h)
  | _ + 1, Option.none, _, _, log, snapAddr, h => (Except.ok (log, snapAddr), h)
  | fuel + 1, some cur, liveAddr, stepNo, log, _, h =>
    match toolForH reg cur with
    | Except.error e => (Except.error e, h)
    | Except.ok Option.none => (Except.error (RunErrH.nodeNotFound cur), h)
    | Except.ok (some (name, tool)) =>
      -- state = tool(state)                          (line 109)
      let res := tool h liveAddr
      let h1 := res.1
      let sAddr := res.2
      let d := dictAt h1 sAddr
      -- snapshot = dict(state): fresh top-level copy (line 112)
      let alloc := heapAlloc h1 (HObj.dict d)
      let h2 := alloc.1
      let newSnap := alloc.2
      let log' := log ++ [⟨stepNo, name, newSnap, d⟩]
      if truthyH h2 (dGetHD d "_stop") then
        (Except.ok (log', newSnap), h2)
      else
        -- next_from_state = state.pop("_next_node", None)  (line 126)
        let nxt := lookupL d "_next_node"
        let h3 := heapSet h2 sAddr (HObj.dict (eraseL d "_next_node"))
        let cur' : Option HVal :=
          match nxt with
          | some v => if v = HVal.none then edgeNextH edges name else some v
          | Option.none => edgeNextH edges name
        runLoopH reg edges fuel cur' sAddr (stepNo + 1) log' newSnap h3

/-- Method `GraphEngine.run_graph` in the heap model.  The caller's
`initial_state` is the dict object at `initAddr` in `h0`.  Graph lookup is
prior to every allocation/mutation; then `RunRecord.__init__` allocates
the `{}` bound to `current_state`, and `dict(initial_state)` allocates the
engine's working copy of the caller's dict (line 99). -/
def run_graphH (reg : List (String × ToolH))
    (graphs : List (String × GraphDefinition)) (graph_id : String)
    (initAddr : Nat) (max_steps : Int) (h0 : Heap) :
    Except RunErrH RunRecordH × Heap :=
  match lookupL graphs graph_id with
  | Option.none => (Except.error (RunErrH.graphNotFound graph_id), h0)
  | some graph =>
    let allocEmpty := heapAlloc h0 (HObj.dict [])
    let h1 := allocEmpty.1
    let emptyAddr := allocEmpty.2
    let allocCopy := heapAlloc h1 (HObj.dict (dictAt h1 initAddr))
    let h2 := allocCopy.1
    let stateAddr := allocCopy.2
    let out := runLoopH reg graph.edges max_steps.toNat
        (some (HVal.str graph.start_node)) stateAddr 0 [] emptyAddr h2
    (out.1.map (fun p => (⟨p.1, p.2⟩ : RunRecordH)), out.2)

/-!
## Behavioural hypotheses on heap-model nodes

A Python node function can only mutate objects it can reach: the state dict
it receives and objects reachable from it.  The engine-private objects
(recorded snapshot dicts, the caller's top-level dict — the working copy,
not the original, is what nodes receive) are not reachable from the node's
argument, so a real node cannot write to them or return them.  The
predicates below state these reachability facts directly as hypotheses on a
heap-model node. -/

/-- The node never touches nor returns the (unreachable) address `p`:
whenever `p` is a live address distinct from the node's argument, the
object at `p` is preserved and is not the returned state. -/
def AvoidsAddr (tool : ToolH) (p : Nat) : Prop :=
  ∀ h a, a ≠ p → h[p]?.isSome →
    (tool h a).1[p]? = h[p]? ∧ (tool h a).2 ≠ p

/-- The node mutates at most the top level of its own argument dict and
fresh allocations: every other live address is preserved, the heap never
shrinks, and the returned state is the argument itself or a fresh object.
(This is the strongest frame a node that only rebinds top-level keys of
the live state satisfies; it forbids mutation of nested shared objects,
which is exactly what the shallow-snapshot counterexample exploits.) -/
def TouchesOnlyArg (tool : ToolH) : Prop :=
  ∀ h a, a < h.length →
    (∀ s, s ≠ a → s < h.length → (tool h a).1[s]? = h[s]?) ∧
    h.length ≤ (tool h a).1.length ∧
    ((tool h a).2 = a ∨ h.length ≤ (tool h a).2) ∧
    (tool h a).2 < (tool h a).1.length

/-!
## Concrete scenarios

Concrete graphs, node implementations and engines used by the worked
examples, witnesses and counterexamples below.
-/

/-- Keep the `RunRecord` of a successful `run_graph` result. -/
def okRecord (r : Except RunErr RunRecord × GraphEngine) : Option RunRecord :=
  match r.1 with
  | Except.ok record => some record
  | Except.error _ => Option.none

/-- The log of a successful heap-model run (empty on error). -/
def logOfH (r : Except RunErrH RunRecordH) : List StepH :=
  match r with
  | Except.ok record => record.log
  | Except.error _ => []

/-- The amended dynamic/static successor rule of claim C1: a dynamic-next
value other than `None` names the next node; a `None`-valued (or absent)
dynamic-next key falls back to the static edge map, whose absent or null
entry halts the run.  (Written from the amended claim's words, to be
compared with the code's decision in `runLoop`.) -/
def dynamicOrStaticNext (edges : List (String × Option String))
    (name : String) (st : StateD) : Option PVal :=
  match dGet st "_next_node" with
  | some PVal.none => edgeNext edges name
  | some v => some v
  | Option.none => edgeNext edges name

/-- Node that marks the state and sets `_next_node` to the value `None`. -/
def noneNextTool : Tool := fun s =>
  dSet (dSet s "seen_a" (PVal.bool true)) "_next_node" PVal.none

/-- Node that only sets the stop flag. -/
def stopTool : Tool := fun s => dSet s "_stop" (PVal.bool true)

/-- Engine with graph `g`: nodes `a, b`, static edges `a → b`, `b → null`,
start `a`; node `a` sets `_next_node = None`, node `b` stops. -/
def noneNextEngine : GraphEngine :=
  ⟨[("a", noneNextTool), ("b", stopTool)],
    [("g", ⟨"g", ["a", "b"], [("a", some "b"), ("b", Option.none)], "a"⟩)],
    []⟩

/-- The run of `noneNextEngine`'s graph from the empty state, ceiling 10. -/
def noneNextRun : Except RunErr RunRecord × GraphEngine :=
  run_graph noneNextEngine "r1" "g" [] 10

/-- Node that writes `x = 1` (an ordinary, non-control node). -/
def setXTool : Tool := fun s => dSet s "x" (PVal.int 1)

/-- Engine whose graph `g` starts at `a` with edge `a → b`, but only node
`a` has a registered implementation. -/
def missingNodeEngine : GraphEngine :=
  ⟨[("a", setXTool)],
    [("g", ⟨"g", ["a", "b"], [("a", some "b"), ("b", Option.none)], "a"⟩)],
    []⟩

/-- Node that always sets `_next_node` to its own name `"loop"` and never
sets the stop flag. -/
def selfLoopTool : Tool := fun s => dSet s "_next_node" (PVal.str "loop")

/-- Engine for the self-looping node: single node `loop`, edge
`loop → null`, start `loop`. -/
def selfLoopEngine : GraphEngine :=
  ⟨[("loop", selfLoopTool)],
    [("g", ⟨"g", ["loop"], [("loop", Option.none)], "loop"⟩)],
    []⟩

/-- The self-looping run with the default ceiling 100 (claim C4). -/
def selfLoopRun : Except RunErr RunRecord × GraphEngine :=
  run_graph selfLoopEngine "r4" "g" [] 100

/-- Example B's node: increment the counter `c`; while `c < 3` set
`_next_node = "loop"`, at `c == 3` set the stop flag. -/
def counterTool : Tool := fun s =>
  let c : Int := match dGetD s "c" with | PVal.int n => n | _ => 0
  let s1 := dSet s "c" (PVal.int (c + 1))
  if c + 1 < 3 then dSet s1 "_next_node" (PVal.str "loop")
  else dSet s1 "_stop" (PVal.bool true)

/-- Engine for Example B: single node `loop`, edge `loop → null`. -/
def counterEngine : GraphEngine :=
  ⟨[("loop", counterTool)],
    [("g", ⟨"g", ["loop"], [("loop", Option.none)], "loop"⟩)],
    []⟩

/-- Example B's run: empty initial state, ceiling 10 (claim C8). -/
def counterRun : Except RunErr RunRecord × GraphEngine :=
  run_graph counterEngine "r8" "g" [] 10

/-- Node that sets the stop flag and `_next_node = "m"` in the same step. -/
def stopAndNextTool : Tool := fun s =>
  dSet (dSet s "_stop" (PVal.bool true)) "_next_node" (PVal.str "m")

/-- Heap-model node: builds and returns the fresh state
`{"xs": [1]}` (a dict holding a nested, mutable list object). -/
def nestedBuildToolH : ToolH := fun h _ =>
  let allocList := heapAlloc h (HObj.list [HVal.int 1])
  let h1 := allocList.1
  let listAddr := allocList.2
  let allocDict := heapAlloc h1 (HObj.dict [("xs", HVal.ref listAddr)])
  (allocDict.1, allocDict.2)

/-- Heap-model node: in-place appends `2` to the list object behind the
state's `"xs"` entry, sets the stop flag, and returns its argument. -/
def nestedMutateToolH : ToolH := fun h a =>
  let d := dictAt h a
  match lookupL d "xs" with
  | some (HVal.ref listAddr) =>
    let h1 := heapSet h listAddr (HObj.list (listAt h listAddr ++ [HVal.int 2]))
    (heapSet h1 a (HObj.dict (setL d "_stop" (HVal.bool true))), a)
  | _ => (h, a)

/-- Heap-model registry for the shallow-snapshot counterexample:
`a` builds the nested state, `b` mutates the nested list. -/
def nestedReg : List (String × ToolH) :=
  [("a", nestedBuildToolH), ("b", nestedMutateToolH)]

/-- Graph store with graph `g`: edges `a → b`, `b → null`, start `a`. -/
def nestedGraphs : List (String × GraphDefinition) :=
  [("g", ⟨"g", ["a", "b"], [("a", some "b"), ("b", Option.none)], "a"⟩)]

/-- Initial heap: the caller's (empty) `initial_state` dict at address 0. -/
def nestedHeap0 : Heap := [HObj.dict []]

/-- The nested-mutation run, truncated after step 0 (ceiling 1): its heap
shows the state of affairs at the moment step 0's snapshot was recorded. -/
def nestedRun1 : Except RunErrH RunRecordH × Heap :=
  run_graphH nestedReg nestedGraphs "g" 0 1 nestedHeap0

/-- The full nested-mutation run (ceiling 10): node `b` has mutated the
list shared with step 0's recorded snapshot. -/
def nestedRun2 : Except RunErrH RunRecordH × Heap :=
  run_graphH nestedReg nestedGraphs "g" 0 10 nestedHeap0

/-- Heap-model node: rebinds the top-level key `"k"` of its argument dict
in place, sets the stop flag, and returns the argument (a node that only
performs top-level mutation). -/
def topLevelToolH : ToolH := fun h a =>
  (heapSet h a
      (HObj.dict (setL (setL (dictAt h a) "k" (HVal.int 7)) "_stop"
        (HVal.bool true))), a)

/-- Registry with the single top-level-mutating node `a`. -/
def topLevelReg : List (String × ToolH) := [("a", topLevelToolH)]

/-- Graph store with the one-node graph `g` (start `a`, edge `a → null`). -/
def oneNodeGraphs : List (String × GraphDefinition) :=
  [("g", ⟨"g", ["a"], [("a", Option.none)], "a"⟩)]

/-- Heap-model node: ignores its argument and returns a freshly allocated
dict `{"y": 1}` (a node that never touches pre-existing objects). -/
def freshDictToolH : ToolH := fun h _ =>
  let alloc := heapAlloc h (HObj.dict [("y", HVal.int 1)])
  (alloc.1, alloc.2)

/-- Registry with the single fresh-allocating node `a`. -/
def freshReg : List (String × ToolH) := [("a", freshDictToolH)]

/-- Initial heap for the initial-state preservation witness: the caller's
dict `{"x": 5}` at address 0. -/
def callerHeap0 : Heap := [HObj.dict [("x", HVal.int 5)]]

/-- The `RunRecord` produced by running `counterEngine`'s graph for a
single step (ceiling 1): node `loop` ran once, set `c = 1` and asked to
loop again; the ceiling then truncated the run. -/
def oneStepRecord : RunRecord :=
  ⟨"r2w", "g",
    [⟨0, "loop", [("c", PVal.int 1), ("_next_node", PVal.str "loop")]⟩],
    [("c", PVal.int 1), ("_next_node", PVal.str "loop")]⟩

/-!
## Helper lemmas
-/

theorem lookupL_mem {α : Type} (l : List (String × α)) (k : String) (v : α)
    (h : lookupL l k = some v) : (k, v) ∈ l := by
  induction l with
  | nil => simp [lookupL] at h
  | cons p rest ih =>
    rcases p with ⟨k', v'⟩
    by_cases hk : k' = k
    · subst hk
      simp [lookupL] at h
      simp [h]
    · simp [lookupL, hk] at h
      exact List.mem_cons_of_mem _ (ih h)

theorem lookupL_setL_self {α : Type} (l : List (String × α)) (k : String)
    (v : α) : lookupL (setL l k v) k = some v := by
  induction l with
  | nil => simp [setL, lookupL]
  | cons p rest ih =>
    rcases p with ⟨k', v'⟩
    by_cases hk : k' = k
    · simp [setL, hk, lookupL]
    · simp [setL, hk, lookupL, ih]

/-- A successful `runLoop` only ever appends to the log it is given. -/
theorem runLoop_log_suffix (reg : List (String × Tool))
    (edges : List (String × Option String)) :
    ∀ (fuel : Nat) (cur : Option PVal) (state : StateD) (stepNo : Nat)
      (log : List ExecutionStep) (snap : StateD) (L : List ExecutionStep)
      (s : StateD),
      runLoop reg edges fuel cur state stepNo log snap = Except.ok (L, s) →
      ∃ suffix, L = log ++ suffix := by
  intro fuel
  induction fuel with
  | zero =>
    intro cur state stepNo log snap L s h
    simp [runLoop] at h
    exact ⟨[], by simp [h.1]⟩
  | succ fuel ih =>
    intro cur state stepNo log snap L s h
    cases cur with
    | none =>
      simp [runLoop] at h
      exact ⟨[], by simp [h.1]⟩
    | some cur =>
      rw [runLoop] at h
      rcases htool : toolFor reg cur with _ | ⟨name, tool⟩ <;> rw [htool] at h
      · simp at h
      · simp only [] at h
        by_cases hstop : truthy (dGetD (tool state) "_stop") = true
        · rw [if_pos hstop] at h
          simp only [Except.ok.injEq, Prod.mk.injEq] at h
          exact ⟨[⟨stepNo, name, tool state⟩], h.1.symm⟩
        · rw [if_neg hstop] at h
          rcases ih _ _ _ _ _ _ _ h with ⟨suffix, hs⟩
          exact ⟨⟨stepNo, name, tool state⟩ :: suffix, by simpa using hs⟩

/-- Step numbering invariant of the loop: starting from a log whose step
numbers are `0..log.length-1` and the matching step counter, a successful
loop returns a log numbered `0..k-1` with at most `fuel` new entries. -/
theorem runLoop_numbering (reg : List (String × Tool))
    (edges : List (String × Option String)) :
    ∀ (fuel : Nat) (cur : Option PVal) (state : StateD) (stepNo : Nat)
      (log : List ExecutionStep) (snap : StateD) (L : List ExecutionStep)
      (s : StateD),
      stepNo = log.length →
      List.map ExecutionStep.step_number log = List.range log.length →
      runLoop reg edges fuel cur state stepNo log snap = Except.ok (L, s) →
      List.map ExecutionStep.step_number L = List.range L.length ∧
        L.length ≤ log.length + fuel := by
  intro fuel
  induction fuel with
  | zero =>
    intro cur state stepNo log snap L s hstep hnum h
    simp [runLoop] at h
    rcases h with ⟨h1, _⟩
    subst h1
    exact ⟨hnum, Nat.le_refl _⟩
  | succ fuel ih =>
    intro cur state stepNo log snap L s hstep hnum h
    cases cur with
    | none =>
      simp [runLoop] at h
      rcases h with ⟨h1, _⟩
      subst h1
      exact ⟨hnum, Nat.le_add_right _ _⟩
    | some cur =>
      rw [runLoop] at h
      rcases htool : toolFor reg cur with _ | ⟨name, tool⟩ <;> rw [htool] at h
      · simp at h
      · simp only [] at h
        by_cases hstop : truthy (dGetD (tool state) "_stop") = true
        · rw [if_pos hstop] at h
          simp only [Except.ok.injEq, Prod.mk.injEq] at h
          rcases h with ⟨h1, _⟩
          subst h1
          constructor
          · subst hstep
            simp [hnum, List.range_succ]
          · simp
        · rw [if_neg hstop] at h
          have hres := ih _ _ _ _ _ _ _ (by simp [hstep])
            (by subst hstep; simp [hnum, List.range_succ]) h
          rcases hres with ⟨hn, hl⟩
          refine ⟨hn, ?_⟩
          simp at hl
          omega

/-- Unfolding `run_graph` when the graph is found. -/
theorem run_graph_eq_found (eng : GraphEngine) (run_id graph_id : String)
    (initial_state : StateD) (max_steps : Int) (graph : GraphDefinition)
    (h : lookupL eng.graphs graph_id = some graph) :
    run_graph eng run_id graph_id initial_state max_steps
      = (match runLoop eng.tool_registry graph.edges max_steps.toNat
            (some (PVal.str graph.start_node)) initial_state 0 [] [] with
        | Except.error e => (Except.error e, eng)
        | Except.ok (log, snap) =>
          (Except.ok ⟨run_id, graph_id, log, snap⟩,
            ⟨eng.tool_registry, eng.graphs,
              setL eng.runs run_id ⟨run_id, graph_id, log, snap⟩⟩)) := by
  simp [run_graph, h]

/-!
## Claim theorems
-/

/-- C6: running an unknown graph identifier fails with `GraphNotFound`
before any mutation: the engine (tool registry, graph store, run store) is
returned unchanged and no `RunRecord` exists.  (The caller's initial state
is a value here; the heap model's preservation theorem covers object-level
mutation.) -/
theorem c6_graph_not_found (eng : GraphEngine) (run_id graph_id : String)
    (initial_state : StateD) (max_steps : Int)
    (h : lookupL eng.graphs graph_id = Option.none) :
    run_graph eng run_id graph_id initial_state max_steps
      = (Except.error (RunErr.graphNotFound graph_id), eng) := by
  simp [run_graph, h]

/-- Witness for C6: an engine with empty stores, asked to run graph
`missing`, errors and is unchanged. -/
theorem c6_witness :
    run_graph ⟨[], [], []⟩ "r" "missing" [] 100
      = (Except.error (RunErr.graphNotFound "missing"), ⟨[], [], []⟩) :=
  c6_graph_not_found ⟨[], [], []⟩ "r" "missing" [] 100 rfl

/-- C7: when `run_graph` raises (in particular `NodeNotFound` for an
unregistered node mid-run), no `RunRecord` is persisted: the engine is
unchanged, so the accumulated step log is discarded and a run-store lookup
for the run's identifier finds exactly what it found before the call. -/
theorem c7_error_discards_run (eng : GraphEngine) (run_id graph_id : String)
    (initial_state : StateD) (max_steps : Int) (e : RunErr)
    (h : (run_graph eng run_id graph_id initial_state max_steps).1
        = Except.error e) :
    (run_graph eng run_id graph_id initial_state max_steps).2 = eng ∧
    get_run (run_graph eng run_id graph_id initial_state max_steps).2 run_id
      = get_run eng run_id := by
  rcases hg : lookupL eng.graphs graph_id with _ | graph
  · rw [show run_graph eng run_id graph_id initial_state max_steps
        = (Except.error (RunErr.graphNotFound graph_id), eng) by
      simp [run_graph, hg]]
    exact ⟨rfl, rfl⟩
  · rw [run_graph_eq_found eng run_id graph_id initial_state max_steps
      graph hg] at h ⊢
    generalize runLoop eng.tool_registry graph.edges max_steps.toNat
        (some (PVal.str graph.start_node)) initial_state 0 [] [] = res at h ⊢
    rcases res with e' | ⟨log, snap⟩
    · exact ⟨rfl, rfl⟩
    · exact Except.noConfusion h

/-- Witness for C7: in `missingNodeEngine`, node `a` executes successfully
but its successor `b` has no registered implementation; the run fails and
the run store still has no entry for the run's identifier. -/
theorem c7_witness :
    (run_graph missingNodeEngine "r7" "g" [] 10).2 = missingNodeEngine ∧
    get_run (run_graph missingNodeEngine "r7" "g" [] 10).2 "r7"
      = Option.none :=
  have h := c7_error_discards_run missingNodeEngine "r7" "g" [] 10
    (RunErr.nodeNotFound (PVal.str "b")) (by rfl)
  ⟨h.1, h.2.trans rfl⟩

/-- C2 (amended): a successful `run_graph` returns (and persists under the
run identifier, the same record) a log whose step numbers are exactly
`0..k-1` with one entry per node invocation, where `k` is the log length
and `k ≤ max(maxSteps, 0)` (that is, `Int.toNat maxSteps`); the claim's
bound `k ≤ maxSteps` fails for negative ceilings, see the
counterexample. -/
theorem c2_step_numbers (eng : GraphEngine) (run_id graph_id : String)
    (initial_state : StateD) (max_steps : Int) (record : RunRecord)
    (eng' : GraphEngine)
    (h : run_graph eng run_id graph_id initial_state max_steps
        = (Except.ok record, eng')) :
    List.map ExecutionStep.step_number record.log
        = List.range record.log.length ∧
      record.log.length ≤ max_steps.toNat ∧
      get_run eng' run_id = some record := by
  rcases hg : lookupL eng.graphs graph_id with _ | graph
  · rw [show run_graph eng run_id graph_id initial_state max_steps
        = (Except.error (RunErr.graphNotFound graph_id), eng) by
      simp [run_graph, hg]] at h
    exact Except.noConfusion (congrArg Prod.fst h)
  · rw [run_graph_eq_found eng run_id graph_id initial_state max_steps
      graph hg] at h
    generalize hl : runLoop eng.tool_registry graph.edges max_steps.toNat
        (some (PVal.str graph.start_node)) initial_state 0 [] [] = res at h
    rcases res with e | ⟨log, snap⟩
    · exact Except.noConfusion (congrArg Prod.fst h)
    · simp only [Prod.mk.injEq, Except.ok.injEq] at h
      rcases h with ⟨hrec, heng⟩
      have hn := runLoop_numbering eng.tool_registry graph.edges
        max_steps.toNat (some (PVal.str graph.start_node)) initial_state
        0 [] [] log snap rfl (by simp) hl
      subst hrec
      subst heng
      refine ⟨hn.1, by simpa using hn.2, ?_⟩
      simp [get_run, lookupL_setL_self]

/-- Witness for C2 (amended): the one-step ceiling-1 run of
`counterEngine` has step numbers `[0]`, length `1 ≤ (1 : Int).toNat`, and
is persisted under its run identifier. -/
theorem c2_witness :
    List.map ExecutionStep.step_number oneStepRecord.log
        = List.range oneStepRecord.log.length ∧
      oneStepRecord.log.length ≤ (1 : Int).toNat ∧
      get_run ⟨counterEngine.tool_registry, counterEngine.graphs,
        setL counterEngine.runs "r2w" oneStepRecord⟩ "r2w"
        = some oneStepRecord :=
  c2_step_numbers counterEngine "r2w" "g" [] 1 oneStepRecord
    ⟨counterEngine.tool_registry, counterEngine.graphs,
      setL counterEngine.runs "r2w" oneStepRecord⟩ (by rfl)

/-- Counterexample to C2 as stated: `run_graph` accepts any Python `int`
ceiling.  With the negative ceiling `-1` the run completes normally with
an empty log (`k = 0`), and no `k` with `k ≤ -1` describes that log: the
claimed bound `k ≤ stepCeiling` fails for negative ceilings. -/
theorem c2_counterexample :
    (okRecord (run_graph counterEngine "r2c" "g" [] (-1))).map
        (fun r => List.map ExecutionStep.step_number r.log) = some [] ∧
    ¬ ∃ k : Nat,
        (okRecord (run_graph counterEngine "r2c" "g" [] (-1))).map
            (fun r => List.map ExecutionStep.step_number r.log)
          = some (List.range k) ∧ (k : Int) ≤ -1 := by
  constructor
  · rfl
  · rintro ⟨k, hk, hle⟩
    rw [show (okRecord (run_graph counterEngine "r2c" "g" [] (-1))).map
        (fun r => List.map ExecutionStep.step_number r.log) = some []
      from rfl] at hk
    have hnil : List.range k = [] := by
      injection hk with hk'
      exact hk'.symm
    have hk0 : k = 0 := by simpa using hnil
    subst hk0
    exact absurd hle (by decide)

/-- C4: reaching the step ceiling ends the run normally: the self-looping
node (always sets `_next_node` to its own name, never the stop flag) with
ceiling 100 yields a successful run with exactly 100 log entries, a final
state with no stop flag at all, and the same `RunRecord` persisted in the
run store under the run identifier — exactly as for a stop-flag
termination, with no distinguishing field (a `RunRecord` carries only
`run_id`, `graph_id`, `log`, `current_state`). -/
theorem c4_ceiling_normal_completion :
    (okRecord selfLoopRun).map (fun r => r.log.length) = some 100 ∧
    (okRecord selfLoopRun).map (fun r => dGet r.current_state "_stop")
      = some Option.none ∧
    get_run selfLoopRun.2 "r4" = okRecord selfLoopRun := by
  refine ⟨?_, ?_, ?_⟩ <;> rfl

/-- C8 (Example B): the counter node runs three times under ceiling 10:
three log entries, final `c = 3`, stop flag truthy in the final state. -/
theorem c8_counter_loop :
    (okRecord counterRun).map
        (fun r => (r.log.length, dGet r.current_state "c",
          truthy (dGetD r.current_state "_stop")))
      = some (3, some (PVal.int 3), true) := by
  rfl

/-- The loop body's inlined successor computation (`pop` + `is not None`
fallback, engine.py lines 126-131) agrees with the amended
dynamic-or-static rule. -/
theorem codeNext_eq_dynamicOrStaticNext
    (edges : List (String × Option String)) (name : String) (st : StateD) :
    (match dGet st "_next_node" with
      | some v => if v = PVal.none then edgeNext edges name else some v
      | Option.none => edgeNext edges name)
      = dynamicOrStaticNext edges name st := by
  unfold dynamicOrStaticNext
  rcases dGet st "_next_node" with _ | v
  · rfl
  · cases v <;> simp

/-- C1 (amended): after every node invocation the engine applies this
strict priority order: if the post-invocation state's stop key is truthy
the run halts at once (the dynamic-next-node key is left in place);
otherwise the dynamic-next-node key is removed from the live state and the
successor is `dynamicOrStaticNext`: the key's value when it is present and
non-`None`, else the static edge map entry, whose absence or null value
halts the run (a `None` next node ends the loop without a further step).
The unamended claim — a *present* key's value always names the next node —
fails when a node stores `None` under the key, see the counterexample. -/
theorem c1_transition_priority (reg : List (String × Tool))
    (edges : List (String × Option String)) (fuel : Nat) (name : String)
    (tool : Tool) (state : StateD) (stepNo : Nat)
    (log : List ExecutionStep) (snap : StateD)
    (hreg : lookupL reg name = some tool) :
    runLoop reg edges (fuel + 1) (some (PVal.str name)) state stepNo log snap
      = (if truthy (dGetD (tool state) "_stop")
        then Except.ok (log ++ [⟨stepNo, name, tool state⟩], tool state)
        else runLoop reg edges fuel
          (dynamicOrStaticNext edges name (tool state))
          (dErase (tool state) "_next_node") (stepNo + 1)
          (log ++ [⟨stepNo, name, tool state⟩]) (tool state)) := by
  have ht : toolFor reg (PVal.str name) = some (name, tool) := by
    simp [toolFor, hreg]
  rw [runLoop, ht]
  by_cases hstop : truthy (dGetD (tool state) "_stop") = true
  · simp [hstop]
  · simp only [Bool.not_eq_true] at hstop
    simp only [hstop, Bool.false_eq_true, if_false]
    rw [codeNext_eq_dynamicOrStaticNext]

/-- Witness for C1 (amended): one concrete unfolding step, node `a`
writing `x = 1`, static edge `a → b`. -/
theorem c1_witness :
    runLoop [("a", setXTool)] [("a", some "b")] 5 (some (PVal.str "a"))
        [] 0 [] []
      = (if truthy (dGetD (setXTool []) "_stop")
        then Except.ok ([] ++ [⟨0, "a", setXTool []⟩], setXTool [])
        else runLoop [("a", setXTool)] [("a", some "b")] 4
          (dynamicOrStaticNext [("a", some "b")] "a" (setXTool []))
          (dErase (setXTool []) "_next_node") (0 + 1)
          ([] ++ [⟨0, "a", setXTool []⟩]) (setXTool [])) :=
  c1_transition_priority [("a", setXTool)] [("a", some "b")] 4 "a" setXTool
    [] 0 [] [] (by rfl)

/-- Counterexample to C1 as stated: in `noneNextRun`, node `a` stores
`None` under the dynamic-next-node key.  The key is *present* in the step
0 post-invocation state (recorded snapshot) and the stop key is falsy, so
the claim says its value names the node visited next; but the run in fact
visits the static successor `b` at step 1 — and the present value `None`
is not the name `b` (nor any node name, `PVal.none ≠ PVal.str s`). -/
theorem c1_counterexample :
    (okRecord noneNextRun).map
        (fun r => r.log.map (fun e =>
          (e.node, dGet e.state_snapshot "_next_node",
            truthy (dGetD e.state_snapshot "_stop"))))
      = some [("a", some PVal.none, false), ("b", Option.none, true)] ∧
    PVal.none ≠ PVal.str "b" :=
  ⟨by rfl, by decide⟩

/-- C3: when a node's returned state has a truthy stop key and the
dynamic-next-node key present in the same step, the loop halts right there
(the step just recorded is the last) and the key is *not* popped: it is
still present, with its value, in the returned final state — the recorded
snapshot `run_record.current_state` of the run.  Stated for an arbitrary
loop configuration, hence for every step of every run. -/
theorem c3_stop_wins_keeps_next (reg : List (String × Tool))
    (edges : List (String × Option String)) (fuel : Nat) (name : String)
    (tool : Tool) (state : StateD) (stepNo : Nat)
    (log : List ExecutionStep) (snap : StateD) (v : PVal)
    (hreg : lookupL reg name = some tool)
    (hstop : truthy (dGetD (tool state) "_stop") = true)
    (hnext : dGet (tool state) "_next_node" = some v) :
    runLoop reg edges (fuel + 1) (some (PVal.str name)) state stepNo log snap
      = Except.ok (log ++ [⟨stepNo, name, tool state⟩], tool state) ∧
    dGet (tool state) "_next_node" = some v := by
  have ht : toolFor reg (PVal.str name) = some (name, tool) := by
    simp [toolFor, hreg]
  refine ⟨?_, hnext⟩
  rw [runLoop, ht]
  simp [hstop]

/-- Witness for C3: node `n` sets both the stop flag and
`_next_node = "m"`; the loop halts after its one step and the final state
keeps the key. -/
theorem c3_witness :
    runLoop [("n", stopAndNextTool)] [] 3 (some (PVal.str "n")) [] 0 [] []
      = Except.ok ([] ++ [⟨0, "n", stopAndNextTool []⟩], stopAndNextTool [])
    ∧ dGet (stopAndNextTool []) "_next_node" = some (PVal.str "m") :=
  c3_stop_wins_keeps_next [("n", stopAndNextTool)] [] 2 "n" stopAndNextTool
    [] 0 [] [] (PVal.str "m") (by rfl) (by rfl) (by rfl)

/-- C10: the snapshot of a step is taken *before* the engine pops the
dynamic-next-node key: whenever the node's returned state contains the
key, (a) in any successful continuation the entry recorded for this step
carries exactly that returned state as its snapshot — so the key, with its
value, is in the recorded snapshot; and (b) when this is the last step
permitted by the ceiling (one fuel unit left) and the stop key is falsy,
the run ends with that same state — key included — as the final recorded
snapshot. -/
theorem c10_snapshot_before_pop (reg : List (String × Tool))
    (edges : List (String × Option String)) (name : String) (tool : Tool)
    (state : StateD) (stepNo : Nat) (log : List ExecutionStep)
    (snap : StateD) (v : PVal)
    (hreg : lookupL reg name = some tool)
    (hnext : dGet (tool state) "_next_node" = some v) :
    (∀ (fuel : Nat) (L : List ExecutionStep) (s : StateD),
      runLoop reg edges (fuel + 1) (some (PVal.str name)) state stepNo log
          snap = Except.ok (L, s) →
      ∃ rest, L = log ++ ⟨stepNo, name, tool state⟩ :: rest ∧
        dGet (tool state) "_next_node" = some v) ∧
    (truthy (dGetD (tool state) "_stop") = false →
      runLoop reg edges 1 (some (PVal.str name)) state stepNo log snap
        = Except.ok (log ++ [⟨stepNo, name, tool state⟩], tool state) ∧
      dGet (tool state) "_next_node" = some v) := by
  have ht : toolFor reg (PVal.str name) = some (name, tool) := by
    simp [toolFor, hreg]
  constructor
  · intro fuel L s h
    rw [runLoop, ht] at h
    simp only [] at h
    by_cases hstop : truthy (dGetD (tool state) "_stop") = true
    · rw [if_pos hstop] at h
      simp only [Except.ok.injEq, Prod.mk.injEq] at h
      exact ⟨[], by simp [h.1.symm], hnext⟩
    · rw [if_neg hstop] at h
      rcases runLoop_log_suffix reg edges fuel _ _ _ _ _ _ _ h
        with ⟨suffix, hs⟩
      exact ⟨suffix, by simpa using hs, hnext⟩
  · intro hstop
    refine ⟨?_, hnext⟩
    rw [runLoop, ht]
    simp only [hstop, Bool.false_eq_true, if_false]
    rw [runLoop]

/-- Witness for C10: the self-looping node sets `_next_node = "loop"`;
with one permitted step the run ends with the key present in both the
recorded step snapshot and the final state. -/
theorem c10_witness :
    (∀ (fuel : Nat) (L : List ExecutionStep) (s : StateD),
      runLoop [("loop", selfLoopTool)] [("loop", Option.none)] (fuel + 1)
          (some (PVal.str "loop")) [] 0 [] [] = Except.ok (L, s) →
      ∃ rest, L = [] ++ ⟨0, "loop", selfLoopTool []⟩ :: rest ∧
        dGet (selfLoopTool []) "_next_node" = some (PVal.str "loop")) ∧
    (truthy (dGetD (selfLoopTool []) "_stop") = false →
      runLoop [("loop", selfLoopTool)] [("loop", Option.none)] 1
          (some (PVal.str "loop")) [] 0 [] []
        = Except.ok ([] ++ [⟨0, "loop", selfLoopTool []⟩], selfLoopTool []) ∧
      dGet (selfLoopTool []) "_next_node" = some (PVal.str "loop")) :=
  c10_snapshot_before_pop [("loop", selfLoopTool)] [("loop", Option.none)]
    "loop" selfLoopTool [] 0 [] [] (PVal.str "loop") (by rfl) (by rfl)

/-- A successful heap-model tool lookup comes from the registry. -/
theorem toolForH_mem (reg : List (String × ToolH)) (cur : HVal)
    (name : String) (tool : ToolH)
    (h : toolForH reg cur = Except.ok (some (name, tool))) :
    (name, tool) ∈ reg := by
  cases cur with
  | str s =>
    simp only [toolForH, Except.ok.injEq] at h
    rcases hl : lookupL reg s with _ | t <;> rw [hl] at h
    · exact absurd h (by simp)
    · simp only [Option.map_some', Option.some.injEq, Prod.mk.injEq] at h
      rcases h with ⟨h1, h2⟩
      subst h1
      subst h2
      exact lookupL_mem reg s t hl
  | none => simp [toolForH] at h
  | bool b => simp [toolForH] at h
  | int n => simp [toolForH] at h
  | ref a => simp [toolForH] at h

/-- One unfolding of the heap-model loop when the node is found, with all
intermediate values written out. -/
theorem runLoopH_step (reg : List (String × ToolH))
    (edges : List (String × Option String)) (fuel : Nat) (cur : HVal)
    (live stepNo : Nat) (log : List StepH) (snapA : Nat) (h : Heap)
    (name : String) (tool : ToolH)
    (htf : toolForH reg cur = Except.ok (some (name, tool))) :
    runLoopH reg edges (fuel + 1) (some cur) live stepNo log snapA h
      = (if truthyH
            ((tool h live).1
              ++ [HObj.dict (dictAt (tool h live).1 (tool h live).2)])
            (dGetHD (dictAt (tool h live).1 (tool h live).2) "_stop")
        then
          (Except.ok
              (log ++ [⟨stepNo, name, (tool h live).1.length,
                dictAt (tool h live).1 (tool h live).2⟩],
                (tool h live).1.length),
            (tool h live).1
              ++ [HObj.dict (dictAt (tool h live).1 (tool h live).2)])
        else
          runLoopH reg edges fuel
            (match lookupL (dictAt (tool h live).1 (tool h live).2)
                "_next_node" with
              | some v =>
                if v = HVal.none then edgeNextH edges name else some v
              | Option.none => edgeNextH edges name)
            (tool h live).2 (stepNo + 1)
            (log ++ [⟨stepNo, name, (tool h live).1.length,
              dictAt (tool h live).1 (tool h live).2⟩])
            (tool h live).1.length
            (((tool h live).1
                ++ [HObj.dict (dictAt (tool h live).1 (tool h live).2)]).set
              (tool h live).2
              (HObj.dict (eraseL (dictAt (tool h live).1 (tool h live).2)
                "_next_node")))) := by
  rw [runLoopH, htf]
  rfl

/-- Heap preservation: if every registered node avoids the (unreachable)
address `p` and the live state is not at `p`, the loop never changes the
object at `p` — on success, failure, or ceiling truncation. -/
theorem runLoopH_preserves_avoided (reg : List (String × ToolH))
    (edges : List (String × Option String)) (p : Nat)
    (htools : ∀ q ∈ reg, AvoidsAddr q.2 p) :
    ∀ (fuel : Nat) (cur : Option HVal) (live stepNo : Nat)
      (log : List StepH) (snapA : Nat) (h : Heap) (o : HObj),
      live ≠ p → h[p]? = some o →
      (runLoopH reg edges fuel cur live stepNo log snapA h).2[p]?
        = some o := by
  intro fuel
  induction fuel with
  | zero =>
    intro cur live stepNo log snapA h o hlive hp
    simpa [runLoopH] using hp
  | succ fuel ih =>
    intro cur live stepNo log snapA h o hlive hp
    cases cur with
    | none => simpa [runLoopH] using hp
    | some cur =>
      rcases htf : toolForH reg cur with e | opt
      · rw [runLoopH, htf]
        simpa using hp
      · rcases opt with _ | ⟨name, tool⟩
        · rw [runLoopH, htf]
          simpa using hp
        · have hmem := toolForH_mem reg cur name tool htf
          have havoid := htools (name, tool) hmem h live hlive (by simp [hp])
          have h1p : (tool h live).1[p]? = some o := by
            rw [havoid.1]
            exact hp
          have hsne : (tool h live).2 ≠ p := havoid.2
          have hplt : p < (tool h live).1.length :=
            (List.getElem?_eq_some.mp h1p).1
          rw [runLoopH_step reg edges fuel cur live stepNo log snapA h
            name tool htf]
          by_cases hstop : truthyH
              ((tool h live).1
                ++ [HObj.dict (dictAt (tool h live).1 (tool h live).2)])
              (dGetHD (dictAt (tool h live).1 (tool h live).2) "_stop")
              = true
          · rw [if_pos hstop]
            simp only []
            rw [List.getElem?_append_left hplt]
            exact h1p
          · rw [if_neg hstop]
            refine ih _ _ _ _ _ _ _ hsne ?_
            rw [List.getElem?_set_ne (by omega)]
            rw [List.getElem?_append_left hplt]
            exact h1p

/-- C9: `run_graph` never mutates the caller's `initial_state` dict at the
top level: the engine copies it (`state = dict(initial_state)`, line 99)
and every engine-side mutation (the `_next_node` pop, snapshot and record
allocations) targets the copy or fresh objects.  Nodes receive the copy,
from which the caller's dict object is unreachable; this reachability fact
is the `AvoidsAddr` hypothesis.  The object at `initAddr` is unchanged
after any run — successful, ceiling-truncated, or failed. -/
theorem c9_initial_state_not_mutated (reg : List (String × ToolH))
    (graphs : List (String × GraphDefinition)) (graph_id : String)
    (initAddr : Nat) (max_steps : Int) (h0 : Heap) (d0 : HDict)
    (hinit : h0[initAddr]? = some (HObj.dict d0))
    (htools : ∀ q ∈ reg, AvoidsAddr q.2 initAddr) :
    (run_graphH reg graphs graph_id initAddr max_steps h0).2[initAddr]?
      = some (HObj.dict d0) := by
  unfold run_graphH
  rcases hg : lookupL graphs graph_id with _ | graph
  · exact hinit
  · simp only []
    have hlt : initAddr < h0.length := (List.getElem?_eq_some.mp hinit).1
    refine runLoopH_preserves_avoided reg graph.edges initAddr htools
      _ _ _ _ _ _ _ _ ?_ ?_
    · show (h0 ++ [HObj.dict []]).length ≠ initAddr
      simp
      omega
    · show ((h0 ++ [HObj.dict []])
          ++ [HObj.dict (dictAt (h0 ++ [HObj.dict []]) initAddr)])[initAddr]?
        = some (HObj.dict d0)
      rw [List.getElem?_append_left (by simp; omega),
        List.getElem?_append_left hlt]
      exact hinit

/-- Witness for C9: the caller's dict `{"x": 5}` at address 0 survives a
run whose node allocates and returns a fresh dict. -/
theorem c9_witness :
    (run_graphH freshReg oneNodeGraphs "g" 0 10 callerHeap0).2[0]?
      = some (HObj.dict [("x", HVal.int 5)]) := by
  refine c9_initial_state_not_mutated freshReg oneNodeGraphs "g" 0 10
    callerHeap0 [("x", HVal.int 5)] (by rfl) ?_
  intro q hq
  simp only [freshReg, List.mem_singleton] at hq
  subst hq
  intro h a hne hsome
  rcases Option.isSome_iff_exists.mp hsome with ⟨o, ho⟩
  have hlt : 0 < h.length := (List.getElem?_eq_some.mp ho).1
  exact ⟨List.getElem?_append_left hlt, show h.length ≠ 0 by omega⟩

/-- Snapshot stability: if every node mutates at most the top level of its
own argument (and fresh objects), snapshots already recorded in the log —
each a distinct dict object unreachable from the live state — keep exactly
the top-level table recorded for them, through every later step of a
successful loop. -/
theorem runLoopH_snapshots_stable (reg : List (String × ToolH))
    (edges : List (String × Option String))
    (htools : ∀ q ∈ reg, TouchesOnlyArg q.2) :
    ∀ (fuel : Nat) (cur : Option HVal) (live stepNo : Nat)
      (log : List StepH) (snapA : Nat) (h : Heap) (L : List StepH)
      (s : Nat) (h' : Heap),
      live < h.length →
      (∀ e ∈ log, e.snap_addr ≠ live ∧ e.snap_addr < h.length ∧
        h[e.snap_addr]? = some (HObj.dict e.snap_dict)) →
      runLoopH reg edges fuel cur live stepNo log snapA h
        = (Except.ok (L, s), h') →
      ∀ e ∈ L, h'[e.snap_addr]? = some (HObj.dict e.snap_dict) := by
  intro fuel
  induction fuel with
  | zero =>
    intro cur live stepNo log snapA h L s h' hlive hinv hrun e he
    simp only [runLoopH, Prod.mk.injEq, Except.ok.injEq] at hrun
    obtain ⟨⟨hL, _⟩, hh⟩ := hrun
    subst hL
    subst hh
    exact (hinv e he).2.2
  | succ fuel ih =>
    intro cur live stepNo log snapA h L s h' hlive hinv hrun e he
    cases cur with
    | none =>
      simp only [runLoopH, Prod.mk.injEq, Except.ok.injEq] at hrun
      obtain ⟨⟨hL, _⟩, hh⟩ := hrun
      subst hL
      subst hh
      exact (hinv e he).2.2
    | some cur =>
      rcases htf : toolForH reg cur with er | opt
      · rw [runLoopH, htf] at hrun
        exact absurd (congrArg Prod.fst hrun) (by simp)
      · rcases opt with _ | ⟨name, tool⟩
        · rw [runLoopH, htf] at hrun
          exact absurd (congrArg Prod.fst hrun) (by simp)
        · have htool2 : TouchesOnlyArg tool :=
            htools (name, tool) (toolForH_mem reg cur name tool htf)
          obtain ⟨hpres, hlen, hret, hretlt⟩ := htool2 h live hlive
          rw [runLoopH_step reg edges fuel cur live stepNo log snapA h
            name tool htf] at hrun
          by_cases hstop : truthyH
              ((tool h live).1
                ++ [HObj.dict (dictAt (tool h live).1 (tool h live).2)])
              (dGetHD (dictAt (tool h live).1 (tool h live).2) "_stop")
              = true
          · rw [if_pos hstop] at hrun
            simp only [Prod.mk.injEq, Except.ok.injEq] at hrun
            obtain ⟨⟨hL, _⟩, hh⟩ := hrun
            subst hL
            subst hh
            rcases List.mem_append.mp he with hel | her
            · obtain ⟨hne, hlt2, hco⟩ := hinv e hel
              have h1e : (tool h live).1[e.snap_addr]?
                  = some (HObj.dict e.snap_dict) := by
                rw [hpres e.snap_addr hne hlt2]
                exact hco
              rw [List.getElem?_append_left (List.getElem?_eq_some.mp h1e).1]
              exact h1e
            · simp only [List.mem_singleton] at her
              subst her
              exact List.getElem?_concat_length _ _
          · rw [if_neg hstop] at hrun
            refine ih _ _ _ _ _ _ _ _ _ ?_ ?_ hrun e he
            · simp only [List.length_set, List.length_append,
                List.length_singleton]
              omega
            · intro e' he'
              rcases List.mem_append.mp he' with hel | her
              · obtain ⟨hne, hlt2, hco⟩ := hinv e' hel
                have hns : e'.snap_addr ≠ (tool h live).2 := by
                  rcases hret with heq | hge
                  · rw [heq]
                    exact hne
                  · omega
                refine ⟨hns, by simp; omega, ?_⟩
                rw [List.getElem?_set_ne (fun hc => hns hc.symm)]
                have h1e : (tool h live).1[e'.snap_addr]?
                    = some (HObj.dict e'.snap_dict) := by
                  rw [hpres e'.snap_addr hne hlt2]
                  exact hco
                rw [List.getElem?_append_left (List.getElem?_eq_some.mp h1e).1]
                exact h1e
              · simp only [List.mem_singleton] at her
                subst her
                refine ⟨by simp; omega, by simp, ?_⟩
                rw [List.getElem?_set_ne (by simp; omega)]
                exact List.getElem?_concat_length _ _

/-- Unwrapping the `RunRecordH` constructor from a successful loop
result. -/
theorem map_wrap_ok (x : Except RunErrH (List StepH × Nat))
    (record : RunRecordH)
    (h : x.map (fun p => (⟨p.1, p.2⟩ : RunRecordH)) = Except.ok record) :
    x = Except.ok (record.log, record.current_state_addr) := by
  rcases x with e | ⟨log, sa⟩
  · simp [Except.map] at h
  · simp only [Except.map, Except.ok.injEq] at h
    subst h
    rfl

/-- C5 (amended): each recorded snapshot is an *independent top-level
copy*: a fresh dict object, distinct from the live state, holding the
state's top-level table at recording time.  Provided later nodes mutate
only the top level of the live state dict (and fresh objects) —
`TouchesOnlyArg`, the frame of a node that rebinds or removes top-level
keys — every recorded snapshot still holds exactly its recorded top-level
table at the end of the run; the engine's own `_next_node` pop and
snapshot allocations never touch older snapshots.  The snapshot is *not* a
deep copy: nested lists or dicts stay shared with the live state, and a
node mutating one through the live state alters the recorded snapshot's
value, see the counterexample. -/
theorem c5_snapshots_top_level_stable (reg : List (String × ToolH))
    (graphs : List (String × GraphDefinition)) (graph_id : String)
    (initAddr : Nat) (max_steps : Int) (h0 : Heap)
    (record : RunRecordH) (h' : Heap)
    (htools : ∀ q ∈ reg, TouchesOnlyArg q.2)
    (hrun : run_graphH reg graphs graph_id initAddr max_steps h0
      = (Except.ok record, h')) :
    ∀ e ∈ record.log, h'[e.snap_addr]? = some (HObj.dict e.snap_dict) := by
  intro e he
  unfold run_graphH at hrun
  generalize hlk : lookupL graphs graph_id = lk at hrun
  rcases lk with _ | graph
  · exact absurd (congrArg Prod.fst hrun) (by simp)
  · simp only [heapAlloc] at hrun
    have h1 := congrArg Prod.fst hrun
    have h2 := congrArg Prod.snd hrun
    simp only [] at h1 h2
    have hloop := map_wrap_ok _ record h1
    refine runLoopH_snapshots_stable reg graph.edges htools _ _ _ _ _ _ _
      _ _ _ ?_ (by simp) (Prod.ext hloop h2) e he
    simp

/-- Witness for C5 (amended): `topLevelToolH` rebinds top-level keys of
its argument in place; after the run, step 0's recorded snapshot object
(address 3) still holds exactly its recorded table. -/
theorem c5_witness :
    (run_graphH topLevelReg oneNodeGraphs "g" 0 10 callerHeap0).2[3]?
      = some (HObj.dict
        [("x", HVal.int 5), ("k", HVal.int 7),
          ("_stop", HVal.bool true)]) := by
  have htools : ∀ q ∈ topLevelReg, TouchesOnlyArg q.2 := by
    intro q hq
    simp only [topLevelReg, List.mem_singleton] at hq
    subst hq
    intro h a ha
    refine ⟨?_, by simp [topLevelToolH, heapSet], Or.inl rfl,
      by simpa [topLevelToolH, heapSet] using ha⟩
    intro s hs hslt
    exact List.getElem?_set_ne (fun hc => hs hc.symm)
  exact c5_snapshots_top_level_stable topLevelReg oneNodeGraphs "g" 0 10
    callerHeap0
    ⟨[⟨0, "a", 3,
      [("x", HVal.int 5), ("k", HVal.int 7), ("_stop", HVal.bool true)]⟩],
      3⟩
    [HObj.dict [("x", HVal.int 5)], HObj.dict [],
      HObj.dict
        [("x", HVal.int 5), ("k", HVal.int 7), ("_stop", HVal.bool true)],
      HObj.dict
        [("x", HVal.int 5), ("k", HVal.int 7), ("_stop", HVal.bool true)]]
    htools (by rfl)
    ⟨0, "a", 3,
      [("x", HVal.int 5), ("k", HVal.int 7), ("_stop", HVal.bool true)]⟩
    (by simp)

/-- Counterexample to C5 as stated: snapshots are *shallow* copies
(`dict(state)`, engine.py line 112), so a nested container is shared
between the live state and the recorded snapshot.  In the nested-mutation
scenario, step 0's recorded snapshot (object 5, recorded table
`xs ↦ ⟨object 3⟩`) is recorded while object 3 is the list `[1]` (the heap
of the ceiling-1 run, which stops right after recording); in the full run,
node `b` later appends to that list through the live state, and the same
recorded snapshot now reads `xs = [1, 2]`: a later mutation of the live
state (of a nested list reachable from it) retroactively altered an
already-recorded snapshot, refuting the deep-copy independence claim. -/
theorem c5_counterexample :
    logOfH nestedRun1.1 = [⟨0, "a", 5, [("xs", HVal.ref 3)]⟩] ∧
    (logOfH nestedRun2.1).take 1 = [⟨0, "a", 5, [("xs", HVal.ref 3)]⟩] ∧
    nestedRun2.2[5]? = some (HObj.dict [("xs", HVal.ref 3)]) ∧
    nestedRun1.2[3]? = some (HObj.list [HVal.int 1]) ∧
    nestedRun2.2[3]? = some (HObj.list [HVal.int 1, HVal.int 2]) ∧
    nestedRun1.2[3]? ≠ nestedRun2.2[3]? :=
  ⟨rfl, rfl, rfl, rfl, rfl, by decide⟩
